import Mathlib

/-!
Shallow embedding of the NAUTILUS Navigator core
(desdeo/mcdm/nautilus_navigator.py) and verification of its specification.

Modelling conventions:
* Python dicts keyed by objective symbols become association lists over exact
  rationals (the source computes with floats; we use exact arithmetic).
* Raised exceptions become an explicit error type carried in Except; the
  constructors follow the specification's error taxonomy, with extra
  constructors for the Python builtin exceptions KeyError and IndexError that
  the source can also raise.
* The external solver together with the external problem-transformation
  collaborators (create_epsilon_constraints, create_asf,
  add_scalarization_function, add_lte_constraints, all outside the provided
  sources) are abstracted as an oracle keyed by exactly the data the in-source
  code feeds into them.
-/

/-- Objective dictionaries of the source (Python dicts keyed by objective
symbol, with real number values) embedded as association lists over ℚ. -/
abbrev ODict := List (String × ℚ)

/-- Python dict lookup d[s]: the first entry with the given key (keys are
unique under the data-model invariant of the spec). -/
def dlookup (d : ODict) (s : String) : Option ℚ :=
  (d.find? (fun p => p.1 == s)).map (fun p => p.2)

/-- Total value accessor used in theorem statements; meaningful under an
isSome hypothesis on dlookup. -/
def dget (d : ODict) (s : String) : ℚ :=
  (dlookup d s).getD 0

/-- One objective of a Problem: symbol, maximize flag and the (optionally
known) ideal and nadir values, as in the spec's data model. -/
structure Objective where
  symbol : String
  maximize : Bool
  ideal : Option ℚ
  nadir : Option ℚ
deriving DecidableEq

/-- The part of a Problem the navigator core reads: its ordered objective
list (read-only collaborator in the spec). -/
structure Problem where
  objectives : List Objective
deriving DecidableEq

/-- Result record of the external Solver Capability: success flag, diagnostic
message and the optimal objective assignment keyed by symbol. -/
structure SolverResults where
  success : Bool
  message : String
  optimal_objectives : ODict
deriving DecidableEq

/-- Abstraction of the external solver plus the external problem
transformation collaborators. asfSolve is the end-to-end result of building
the achievement-scalarization problem of solve_reachable_solution (keyed by
the reference point and previous navigation point it is built from) and
solving it; epsSolve is the end-to-end result of building the
epsilon-constraint problem of solve_reachable_bounds (keyed by the target
objective symbol and the const bound dictionary it is built from) and
solving it. -/
structure SolverOracle where
  asfSolve : ODict → ODict → SolverResults
  epsSolve : String → ODict → SolverResults

/-- Errors of the navigator core. The source raises the single class
NautilusNavigatorError with distinct messages; constructors here follow the
specification's taxonomy for those raise sites. keyError and indexError model
the Python builtin exceptions KeyError and IndexError that dictionary and
list accesses in the source can raise. -/
inductive NautilusNavigatorError where
  | invalidStepCount
  | ambiguousOrMissingPreferenceInput
  | incompleteIdealOrNadir
  | solveFailure (message : String)
  | keyError
  | indexError
deriving DecidableEq

/-- Response snapshot of one navigation step (class NAUTILUS_Response of the
source). reachable_bounds is the pair (lower_bounds, upper_bounds) the source
stores under those two dict keys. distance_to_front stores the square of the
source's value: the source computes 100 * (a norm quotient) whose square is
rational while the value itself is generally irrational; no claim inspects
the numeric value of this field. -/
structure NAUTILUS_Response where
  step_number : Int
  distance_to_front : ℚ
  reference_point : Option ODict
  navigation_point : ODict
  reachable_solution : Option ODict
  reachable_bounds : ODict × ODict
deriving DecidableEq

/-- Effectful map over a list in the Except monad, written as explicit
recursion: the first failing element aborts the whole computation, as a
Python for loop raising an exception does. -/
def exceptMap {α β : Type} (F : α → Except NautilusNavigatorError β) :
    List α → Except NautilusNavigatorError (List β)
  | [] => .ok []
  | a :: l =>
    match F a with
    | .error e => .error e
    | .ok b =>
      match exceptMap F l with
      | .error e => .error e
      | .ok bs => .ok (b :: bs)

theorem exceptMap_ok_of {α β : Type} (F : α → Except NautilusNavigatorError β)
    (g : α → β) (l : List α) (h : ∀ a ∈ l, F a = .ok (g a)) :
    exceptMap F l = .ok (l.map g) := by
  induction l with
  | nil => rfl
  | cons a t ih =>
    simp only [exceptMap, h a (List.mem_cons_self a t),
      ih (fun x hx => h x (List.mem_cons_of_mem a hx)), List.map_cons]

theorem exceptMap_error_mem {α β : Type}
    (F : α → Except NautilusNavigatorError β) (l : List α)
    (e : NautilusNavigatorError) (h : exceptMap F l = .error e) :
    ∃ a ∈ l, F a = .error e := by
  induction l with
  | nil => simp [exceptMap] at h
  | cons a t ih =>
    simp only [exceptMap] at h
    cases hF : F a with
    | error e2 =>
      rw [hF] at h
      exact ⟨a, List.mem_cons_self a t, by cases h; exact hF⟩
    | ok b =>
      rw [hF] at h
      cases ht : exceptMap F t with
      | error e2 =>
        rw [ht] at h
        cases h
        obtain ⟨x, hx, hFx⟩ := ih ht
        exact ⟨x, List.mem_cons_of_mem a hx, hFx⟩
      | ok bs => rw [ht] at h; cases h

theorem exceptMap_error_of {α β : Type}
    (F : α → Except NautilusNavigatorError β) (l : List α)
    (e : NautilusNavigatorError)
    (hall : ∀ a ∈ l, ∀ e2, F a = .error e2 → e2 = e)
    (hex : ∃ a ∈ l, F a = .error e) :
    exceptMap F l = .error e := by
  induction l with
  | nil => obtain ⟨a, ha, _⟩ := hex; simp at ha
  | cons a t ih =>
    simp only [exceptMap]
    cases hF : F a with
    | error e2 =>
      rw [hall a (List.mem_cons_self a t) e2 hF]
    | ok b =>
      have hext : ∃ x ∈ t, F x = .error e := by
        obtain ⟨x, hx, hFx⟩ := hex
        rcases List.mem_cons.mp hx with rfl | hx2
        · rw [hF] at hFx; cases hFx
        · exact ⟨x, hx2, hFx⟩
      rw [ih (fun x hx => hall x (List.mem_cons_of_mem a hx)) hext]

/-- Modelled from the spec: objective_dict_to_numpy_array lives in
desdeo.problem, outside the provided sources. Per the spec's data-model
invariant objective dicts are keyed exactly by the problem's objective
symbols; the conversion reads the value of every objective in the problem's
objective order, a missing key modelling Python's KeyError. -/
def objective_dict_to_numpy_array (P : Problem) (d : ODict) :
    Except NautilusNavigatorError (List ℚ) :=
  exceptMap (fun o =>
    match dlookup d o.symbol with
    | some v => .ok v
    | none => .error .keyError) P.objectives

/-- Modelled from the spec: numpy_array_to_objective_dict lives in
desdeo.problem, outside the provided sources. It pairs the problem's
objective symbols, in objective order, with the array's values. -/
def numpy_array_to_objective_dict (P : Problem) (arr : List ℚ) : ODict :=
  (P.objectives.zip arr).map (fun p => (p.1.symbol, p.2))

/-- Function calculate_navigation_point of the source: rejects a
non-positive steps-remaining count, then blends the previous navigation
point with the reachable objective vector, componentwise in objective order,
as ((r - 1) / r) * z_prev + f / r. The source's transpose of the 1-D numpy
array f is the identity and is omitted. -/
def calculate_navigation_point (P : Problem)
    (previous_navigation_point reachable_objective_vector : ODict)
    (number_of_steps_remaining : Int) :
    Except NautilusNavigatorError ODict :=
  if number_of_steps_remaining ≤ 0 then .error .invalidStepCount
  else
    match objective_dict_to_numpy_array P previous_navigation_point with
    | .error e => .error e
    | .ok z_prev =>
      match objective_dict_to_numpy_array P reachable_objective_vector with
      | .error e => .error e
      | .ok f =>
        .ok (numpy_array_to_objective_dict P
          ((z_prev.zip f).map (fun p =>
            (((number_of_steps_remaining : ℚ) - 1) /
                (number_of_steps_remaining : ℚ)) * p.1 +
              p.2 / (number_of_steps_remaining : ℚ))))

theorem objective_dict_to_numpy_array_ok (P : Problem) (d : ODict)
    (h : ∀ o ∈ P.objectives, (dlookup d o.symbol).isSome = true) :
    objective_dict_to_numpy_array P d =
      .ok (P.objectives.map (fun o => dget d o.symbol)) := by
  apply exceptMap_ok_of
  intro o ho
  obtain ⟨v, hv⟩ := Option.isSome_iff_exists.mp (h o ho)
  simp [hv, dget]

theorem numpy_array_to_objective_dict_map (P : Problem) (q : Objective → ℚ) :
    numpy_array_to_objective_dict P (P.objectives.map q) =
      P.objectives.map (fun o => (o.symbol, q o)) := by
  unfold numpy_array_to_objective_dict
  rw [show P.objectives.zip (P.objectives.map q) =
      (P.objectives.map id).zip (P.objectives.map q) by rw [List.map_id],
    List.zip_map']
  simp

theorem dlookup_objmap (objs : List Objective) (g : Objective → ℚ)
    (o : Objective) (ho : o ∈ objs)
    (hnd : (objs.map (fun o2 => o2.symbol)).Nodup) :
    dlookup (objs.map (fun o2 => (o2.symbol, g o2))) o.symbol = some (g o) := by
  induction objs with
  | nil => simp at ho
  | cons a t ih =>
    simp only [List.map_cons, List.nodup_cons] at hnd
    rcases List.mem_cons.mp ho with rfl | hot
    · simp [dlookup]
    · by_cases hsym : a.symbol = o.symbol
      · exact absurd (hsym ▸ List.mem_map_of_mem (fun o2 => o2.symbol) hot)
          hnd.1
      · have := ih hot hnd.2
        simpa [dlookup, List.find?, Ne.symm hsym,
          show (a.symbol == o.symbol) = false from beq_eq_false_iff_ne.mpr hsym]
          using this

/-- C1: for every problem, previous navigation point z, reachable objective
vector f and steps-remaining count r, calculate_navigation_point raises
InvalidStepCount when r ≤ 0, and for r > 0 (on dictionaries holding every
objective symbol) it returns, per objective symbol, ((r-1)/r)*z + f/r; this
value equals z + (1/r)*(f - z), so it lies on the segment between z and f
with weight 1/r on f (0 < 1/r ≤ 1), and at r = 1 it equals f exactly. -/
theorem C1_calculate_navigation_point (P : Problem) (z f : ODict) (r : Int) :
    (r ≤ 0 →
      calculate_navigation_point P z f r = .error .invalidStepCount) ∧
    (0 < r →
      (∀ o ∈ P.objectives, (dlookup z o.symbol).isSome = true) →
      (∀ o ∈ P.objectives, (dlookup f o.symbol).isSome = true) →
      calculate_navigation_point P z f r =
        .ok (P.objectives.map (fun o =>
          (o.symbol,
            (((r : ℚ) - 1) / (r : ℚ)) * dget z o.symbol +
              dget f o.symbol / (r : ℚ)))) ∧
      ((P.objectives.map (fun o2 => o2.symbol)).Nodup →
        ∀ o ∈ P.objectives, ∀ d,
          calculate_navigation_point P z f r = .ok d →
          dlookup d o.symbol = some
            ((((r : ℚ) - 1) / (r : ℚ)) * dget z o.symbol +
              dget f o.symbol / (r : ℚ))) ∧
      (∀ o ∈ P.objectives,
        (((r : ℚ) - 1) / (r : ℚ)) * dget z o.symbol +
            dget f o.symbol / (r : ℚ) =
          dget z o.symbol +
            (1 / (r : ℚ)) * (dget f o.symbol - dget z o.symbol)) ∧
      (r = 1 → ∀ o ∈ P.objectives,
        (((r : ℚ) - 1) / (r : ℚ)) * dget z o.symbol +
            dget f o.symbol / (r : ℚ) = dget f o.symbol) ∧
      0 < 1 / (r : ℚ) ∧ 1 / (r : ℚ) ≤ 1) := by
  constructor
  · intro hr
    unfold calculate_navigation_point
    rw [if_pos hr]
  · intro hr hz hf
    have hrq : (0 : ℚ) < (r : ℚ) := by exact_mod_cast hr
    have hne : (r : ℚ) ≠ 0 := ne_of_gt hrq
    have hmain : calculate_navigation_point P z f r =
        .ok (P.objectives.map (fun o =>
          (o.symbol,
            (((r : ℚ) - 1) / (r : ℚ)) * dget z o.symbol +
              dget f o.symbol / (r : ℚ)))) := by
      simp only [calculate_navigation_point,
        if_neg (show ¬ r ≤ 0 by omega),
        objective_dict_to_numpy_array_ok P z hz,
        objective_dict_to_numpy_array_ok P f hf,
        List.zip_map', List.map_map, Function.comp,
        numpy_array_to_objective_dict_map]
    refine ⟨hmain, ?_, ?_, ?_, ?_, ?_⟩
    · intro hnd o ho d hd
      rw [hmain] at hd
      cases hd
      exact dlookup_objmap P.objectives _ o ho hnd
    · intro o ho
      field_simp
      ring
    · intro hr1 o ho
      subst hr1
      norm_num
    · exact one_div_pos.mpr hrq
    · rw [div_le_one hrq]
      exact_mod_cast hr

/-- Concrete one-objective problem used by several witnesses. -/
def wP : Problem :=
  { objectives := [{ symbol := "f1", maximize := false,
                     ideal := some 0, nadir := some 10 }] }

/-- Concrete previous navigation point for the C1 witness. -/
def c1z : ODict := [("f1", 10)]

/-- Concrete reachable objective vector for the C1 witness. -/
def c1f : ODict := [("f1", 2)]

theorem C1_calculate_navigation_point_witness :
    (0 : Int) < 3 ∧
    (∀ o ∈ wP.objectives, (dlookup c1z o.symbol).isSome = true) ∧
    (∀ o ∈ wP.objectives, (dlookup c1f o.symbol).isSome = true) ∧
    (calculate_navigation_point wP c1z c1f 3 =
        .ok (wP.objectives.map (fun o =>
          (o.symbol,
            ((((3 : Int) : ℚ) - 1) / ((3 : Int) : ℚ)) * dget c1z o.symbol +
              dget c1f o.symbol / ((3 : Int) : ℚ)))) ∧
      ((wP.objectives.map (fun o2 => o2.symbol)).Nodup →
        ∀ o ∈ wP.objectives, ∀ d,
          calculate_navigation_point wP c1z c1f 3 = .ok d →
          dlookup d o.symbol = some
            (((((3 : Int) : ℚ) - 1) / ((3 : Int) : ℚ)) * dget c1z o.symbol +
              dget c1f o.symbol / ((3 : Int) : ℚ))) ∧
      (∀ o ∈ wP.objectives,
        ((((3 : Int) : ℚ) - 1) / ((3 : Int) : ℚ)) * dget c1z o.symbol +
            dget c1f o.symbol / ((3 : Int) : ℚ) =
          dget c1z o.symbol +
            (1 / ((3 : Int) : ℚ)) *
              (dget c1f o.symbol - dget c1z o.symbol)) ∧
      ((3 : Int) = 1 → ∀ o ∈ wP.objectives,
        ((((3 : Int) : ℚ) - 1) / ((3 : Int) : ℚ)) * dget c1z o.symbol +
            dget c1f o.symbol / ((3 : Int) : ℚ) = dget c1f o.symbol) ∧
      0 < 1 / ((3 : Int) : ℚ) ∧ 1 / ((3 : Int) : ℚ) ≤ 1) :=
  ⟨by decide, by decide, by decide,
    (C1_calculate_navigation_point wP c1z c1f 3).2 (by decide)
      (by decide) (by decide)⟩

/-- The const bound dictionary built at the top of solve_reachable_bounds:
per objective, the navigation point value, multiplied by -1 when the
objective is to be maximized. A missing navigation point key is Python's
KeyError raised by the dict comprehension. -/
def const_bounds (P : Problem) (navigation_point : ODict) :
    Except NautilusNavigatorError ODict :=
  exceptMap (fun o =>
    match dlookup navigation_point o.symbol with
    | some v => .ok (o.symbol, (if o.maximize then (-1 : ℚ) else 1) * v)
    | none => .error .keyError) P.objectives

/-- Pure form of const_bounds used in theorem statements; the two coincide
when the navigation point holds every objective symbol. -/
def const_bounds_of (P : Problem) (navigation_point : ODict) : ODict :=
  P.objectives.map (fun o =>
    (o.symbol,
      (if o.maximize then (-1 : ℚ) else 1) * dget navigation_point o.symbol))

/-- Body of the per-objective loop of solve_reachable_bounds: build and
solve the epsilon-constraint problem (the building by external collaborators
and the solving are abstracted by the oracle), abort on an unsuccessful
solve preserving the diagnostic message, then assign the solved minimal
value and the navigation point value to the (lower, upper) bound entries,
swapped when the objective is maximized. The source's unwrapping of
one-element lists around scalar values is a numpy artifact with no
counterpart in the exact embedding. -/
def bounds_for_objective (oracle : SolverOracle) (navigation_point cb : ODict)
    (o : Objective) : Except NautilusNavigatorError (String × ℚ × ℚ) :=
  let res := oracle.epsSolve o.symbol cb
  if res.success = false then .error (.solveFailure res.message)
  else
    match dlookup res.optimal_objectives o.symbol with
    | none => .error .keyError
    | some lower_bound =>
      match dlookup navigation_point o.symbol with
      | none => .error .keyError
      | some upper_bound =>
        .ok (o.symbol,
          (if o.maximize then upper_bound else lower_bound),
          (if o.maximize then lower_bound else upper_bound))

/-- Function solve_reachable_bounds of the source: the const bound dict,
then one epsilon-constraint sub-solve per objective (all-or-nothing), and
the two bound dicts assembled from the per-objective entries. -/
def solve_reachable_bounds (P : Problem) (oracle : SolverOracle)
    (navigation_point : ODict) :
    Except NautilusNavigatorError (ODict × ODict) :=
  match const_bounds P navigation_point with
  | .error e => .error e
  | .ok cb =>
    match exceptMap (bounds_for_objective oracle navigation_point cb)
        P.objectives with
    | .error e => .error e
    | .ok entries =>
      .ok (entries.map (fun p => (p.1, p.2.1)),
           entries.map (fun p => (p.1, p.2.2)))

/-- Function solve_reachable_solution of the source: builds the achievement
scalarizing problem constrained to improve on the previous navigation point
(external collaborators) and delegates to the solver; the oracle abstracts
that pipeline, keyed by the data the source feeds into it. The result,
including a possible failure, is returned unchecked. -/
def solve_reachable_solution (P : Problem) (oracle : SolverOracle)
    (reference_point previous_nav_point : ODict) : SolverResults :=
  oracle.asfSolve reference_point previous_nav_point

/-- Squared Euclidean distance between two equally long value lists. -/
def sqDist (xs ys : List ℚ) : ℚ :=
  ((xs.zip ys).map (fun p => (p.1 - p.2) ^ 2)).sum

/-- Function calculate_distance_to_front of the source: reads the problem's
nadir values (get_nadir_dict composed with the array conversion, both
external, modelled from the spec as the per-objective nadir components),
aborts with IncompleteIdealOrNadir when any component is None, and otherwise
returns the progress ratio. The source value is
100 * dist(z_nav, nadir) / dist(f, nadir) with Euclidean norms; being
generally irrational, the embedding returns its square
100^2 * sqDist(z_nav, nadir) / sqDist(f, nadir), which determines it and is
inspected numerically by no claim. Division by zero (reachable vector equal
to the nadir) is left at the ℚ convention 0; the source leaves that case
undefined as well, an open question flagged by the spec. -/
def calculate_distance_to_front (P : Problem)
    (navigation_point reachable_objective_vector : ODict) :
    Except NautilusNavigatorError ℚ :=
  match exceptMap (fun o =>
      match o.nadir with
      | some v => Except.ok v
      | none => Except.error .incompleteIdealOrNadir) P.objectives with
  | .error e => .error e
  | .ok nadir_point =>
    match objective_dict_to_numpy_array P navigation_point with
    | .error e => .error e
    | .ok z_nav =>
      match objective_dict_to_numpy_array P reachable_objective_vector with
      | .error e => .error e
      | .ok f =>
        .ok ((100 : ℚ) ^ 2 * sqDist z_nav nadir_point / sqDist f nadir_point)

/-- Tail of navigator_step after the reachable point has been determined:
new navigation point, new bounds at it, distance, and the assembled
response. -/
def navigator_step_core (P : Problem) (oracle : SolverOracle)
    (steps_remaining step_number : Int) (nav_point : ODict)
    (reference_point : Option ODict) (reachable_point : ODict) :
    Except NautilusNavigatorError NAUTILUS_Response :=
  match calculate_navigation_point P nav_point reachable_point
      steps_remaining with
  | .error e => .error e
  | .ok new_nav_point =>
    match solve_reachable_bounds P oracle new_nav_point with
    | .error e => .error e
    | .ok bounds =>
      match calculate_distance_to_front P new_nav_point reachable_point with
      | .error e => .error e
      | .ok distance =>
        .ok { step_number := step_number,
              distance_to_front := distance,
              reference_point := reference_point,
              navigation_point := new_nav_point,
              reachable_solution := some reachable_point,
              reachable_bounds := bounds }

/-- Function navigator_step of the source (the Step Orchestrator): exactly
one of reference_point and reachable_solution must be supplied, checked
before anything else; with a reference point the reachable point is
recomputed by projection (its success flag is not checked by the source),
otherwise the supplied precomputed reachable solution is used directly. -/
def navigator_step (P : Problem) (oracle : SolverOracle)
    (steps_remaining step_number : Int) (nav_point : ODict)
    (reference_point reachable_solution : Option ODict) :
    Except NautilusNavigatorError NAUTILUS_Response :=
  match reference_point, reachable_solution with
  | none, none => .error .ambiguousOrMissingPreferenceInput
  | some _, some _ => .error .ambiguousOrMissingPreferenceInput
  | some rp, none =>
    navigator_step_core P oracle steps_remaining step_number nav_point
      (some rp)
      (solve_reachable_solution P oracle rp nav_point).optimal_objectives
  | none, some rs =>
    navigator_step_core P oracle steps_remaining step_number nav_point
      none rs

/-- C6: the Step Orchestrator raises AmbiguousOrMissingPreferenceInput when
neither or both of reference_point and reachable_solution are supplied (for
every oracle, so before any solve is performed), and a successful step
implies exactly one of the two was supplied. -/
theorem C6_navigator_step_preference_exclusivity (P : Problem)
    (oracle : SolverOracle) (steps_remaining step_number : Int)
    (nav_point : ODict) (reference_point reachable_solution : Option ODict) :
    ((reference_point = none ∧ reachable_solution = none) →
      navigator_step P oracle steps_remaining step_number nav_point
          reference_point reachable_solution =
        .error .ambiguousOrMissingPreferenceInput) ∧
    ((reference_point.isSome = true ∧ reachable_solution.isSome = true) →
      navigator_step P oracle steps_remaining step_number nav_point
          reference_point reachable_solution =
        .error .ambiguousOrMissingPreferenceInput) ∧
    (∀ r, navigator_step P oracle steps_remaining step_number nav_point
          reference_point reachable_solution = .ok r →
      (reference_point.isSome = true ↔ reachable_solution.isSome = false)) := by
  cases reference_point <;> cases reachable_solution <;>
    simp [navigator_step]

/-- Decidable equality for Except results, used to evaluate the embedded
operations on concrete inputs. -/
instance {ε α : Type} [DecidableEq ε] [DecidableEq α] :
    DecidableEq (Except ε α) := fun a b =>
  match a, b with
  | .error e1, .error e2 =>
    if h : e1 = e2 then .isTrue (by rw [h])
    else .isFalse (by intro hc; cases hc; exact h rfl)
  | .error e1, .ok a2 => .isFalse (by intro hc; cases hc)
  | .ok a1, .error e2 => .isFalse (by intro hc; cases hc)
  | .ok a1, .ok a2 =>
    if h : a1 = a2 then .isTrue (by rw [h])
    else .isFalse (by intro hc; cases hc; exact h rfl)

/-- Concrete always-succeeding solver oracle used by several witnesses:
every solve reports success with optimal objective value 0 for f1. -/
def wOracle : SolverOracle :=
  { asfSolve := fun _ _ =>
      { success := true, message := "", optimal_objectives := [("f1", 0)] },
    epsSolve := fun _ _ =>
      { success := true, message := "", optimal_objectives := [("f1", 0)] } }

theorem C6_navigator_step_preference_exclusivity_witness :
    (navigator_step wP wOracle 1 1 c1z none none =
      .error .ambiguousOrMissingPreferenceInput) ∧
    (navigator_step wP wOracle 1 1 c1z (some c1f) (some c1f) =
      .error .ambiguousOrMissingPreferenceInput) ∧
    ((some c1f : Option ODict).isSome = true ↔
      (none : Option ODict).isSome = false) :=
  ⟨(C6_navigator_step_preference_exclusivity wP wOracle 1 1 c1z
      none none).1 ⟨rfl, rfl⟩,
   (C6_navigator_step_preference_exclusivity wP wOracle 1 1 c1z
      (some c1f) (some c1f)).2.1 ⟨rfl, rfl⟩,
   (C6_navigator_step_preference_exclusivity wP wOracle 1 1 c1z
      (some c1f) none).2.2
     { step_number := 1, distance_to_front := 10000,
       reference_point := some c1f, navigation_point := [("f1", 0)],
       reachable_solution := some [("f1", 0)],
       reachable_bounds := ([("f1", 0)], [("f1", 0)]) }
     (by norm_num [navigator_step, navigator_step_core,
       solve_reachable_solution, calculate_navigation_point,
       objective_dict_to_numpy_array, numpy_array_to_objective_dict,
       exceptMap, dlookup, dget, const_bounds, bounds_for_objective,
       solve_reachable_bounds, calculate_distance_to_front, sqDist, wP,
       wOracle, c1z, c1f])⟩

/-- One-objective problem whose nadir value is undefined, for C7. -/
def c7P : Problem :=
  { objectives := [{ symbol := "f1", maximize := false,
                     ideal := some 0, nadir := none }] }

/-- C7 counterexample: on a problem whose nadir point is missing a value,
calculate_distance_to_front raises IncompleteIdealOrNadir but
solve_reachable_bounds, which never consults the nadir point, succeeds; so
the claim that both computations raise is false. -/
theorem C7_counterexample :
    calculate_distance_to_front c7P [("f1", 5)] [("f1", 2)] =
      .error .incompleteIdealOrNadir ∧
    solve_reachable_bounds c7P wOracle [("f1", 5)] =
      .ok ([("f1", 0)], [("f1", 5)]) := by
  constructor <;>
    norm_num [calculate_distance_to_front, solve_reachable_bounds,
      const_bounds, bounds_for_objective, exceptMap, dlookup, dget,
      objective_dict_to_numpy_array, numpy_array_to_objective_dict, sqDist,
      c7P, wOracle]

theorem bounds_for_objective_ne_incomplete (oracle : SolverOracle)
    (nav cb : ODict) (o : Objective)
    (h : bounds_for_objective oracle nav cb o =
      .error .incompleteIdealOrNadir) : False := by
  simp only [bounds_for_objective] at h
  split at h
  · simp at h
  · split at h
    · simp at h
    · split at h
      · simp at h
      · simp at h

/-- C7 amended: when the problem's nadir point is missing a value for some
objective, calculate_distance_to_front raises IncompleteIdealOrNadir before
computing a result; solve_reachable_bounds however does not consult the
nadir point (its constraints come from the given navigation point) and can
never raise IncompleteIdealOrNadir, for any oracle. -/
theorem C7_amended_incomplete_nadir (P : Problem) (nav f : ODict)
    (h : ∃ o ∈ P.objectives, o.nadir = none) :
    calculate_distance_to_front P nav f = .error .incompleteIdealOrNadir ∧
    ∀ oracle : SolverOracle,
      solve_reachable_bounds P oracle nav ≠
        .error .incompleteIdealOrNadir := by
  constructor
  · have herr : exceptMap (fun o =>
        match o.nadir with
        | some v => Except.ok v
        | none => Except.error NautilusNavigatorError.incompleteIdealOrNadir)
          P.objectives = .error .incompleteIdealOrNadir := by
      apply exceptMap_error_of
      · intro a _ e2 he
        cases hn : a.nadir with
        | some v => rw [hn] at he; cases he
        | none => rw [hn] at he; cases he; rfl
      · obtain ⟨o, ho, hn⟩ := h
        exact ⟨o, ho, by rw [hn]⟩
    unfold calculate_distance_to_front
    rw [herr]
  · intro oracle hcontra
    unfold solve_reachable_bounds at hcontra
    split at hcontra
    · rename_i e hcb
      cases hcontra
      obtain ⟨a, _, ha⟩ := exceptMap_error_mem _ _ _ hcb
      cases hd : dlookup nav a.symbol with
      | some v => simp [hd] at ha
      | none => simp [hd] at ha
    · rename_i cb hcb
      split at hcontra
      · rename_i e hent
        cases hcontra
        obtain ⟨a, _, ha⟩ := exceptMap_error_mem _ _ _ hent
        exact bounds_for_objective_ne_incomplete oracle nav cb a ha
      · cases hcontra

theorem C7_amended_incomplete_nadir_witness :
    (∃ o ∈ c7P.objectives, o.nadir = none) ∧
    (calculate_distance_to_front c7P [("f1", 5)] [("f1", 2)] =
        .error .incompleteIdealOrNadir ∧
      ∀ oracle : SolverOracle,
        solve_reachable_bounds c7P oracle [("f1", 5)] ≠
          .error .incompleteIdealOrNadir) :=
  ⟨⟨{ symbol := "f1", maximize := false, ideal := some 0, nadir := none },
      by decide⟩,
   C7_amended_incomplete_nadir c7P [("f1", 5)] [("f1", 2)]
     ⟨{ symbol := "f1", maximize := false, ideal := some 0, nadir := none },
      by decide⟩⟩

/-- Result of the epsilon-constraint sub-solve for a single objective from a
given navigation point, as performed inside solve_reachable_bounds. -/
def eps_result (P : Problem) (oracle : SolverOracle) (nav : ODict)
    (o : Objective) : SolverResults :=
  oracle.epsSolve o.symbol (const_bounds_of P nav)

theorem const_bounds_ok (P : Problem) (nav : ODict)
    (hk : ∀ o ∈ P.objectives, (dlookup nav o.symbol).isSome = true) :
    const_bounds P nav = .ok (const_bounds_of P nav) := by
  unfold const_bounds const_bounds_of
  apply exceptMap_ok_of
  intro o ho
  obtain ⟨v, hv⟩ := Option.isSome_iff_exists.mp (hk o ho)
  simp [hv, dget]

/-- C8: when the navigation point holds every objective symbol, all
epsilon-constraint sub-solves report success and return a value for the
target objective, and each solved value respects the navigation-point bound
in minimization orientation (the contract of the external solver on the
constrained sub-problem), solve_reachable_bounds assigns the solved minimal
value and the navigation-point value to the (lower, upper) bounds according
to the maximize flag — lower = solved and upper = navigation point for a
minimized objective, swapped for a maximized one — and the returned pair
satisfies lower ≤ upper per objective. -/
theorem C8_solve_reachable_bounds (P : Problem) (oracle : SolverOracle)
    (nav : ODict)
    (hnd : (P.objectives.map (fun o => o.symbol)).Nodup)
    (hk : ∀ o ∈ P.objectives, (dlookup nav o.symbol).isSome = true)
    (hs : ∀ o ∈ P.objectives, (eps_result P oracle nav o).success = true)
    (hsv : ∀ o ∈ P.objectives,
      (dlookup (eps_result P oracle nav o).optimal_objectives
        o.symbol).isSome = true)
    (hc : ∀ o ∈ P.objectives,
      (if o.maximize then (-1 : ℚ) else 1) *
          dget (eps_result P oracle nav o).optimal_objectives o.symbol ≤
        (if o.maximize then (-1 : ℚ) else 1) * dget nav o.symbol) :
    solve_reachable_bounds P oracle nav =
      .ok (P.objectives.map (fun o =>
            (o.symbol,
              if o.maximize then dget nav o.symbol
              else dget (eps_result P oracle nav o).optimal_objectives
                o.symbol)),
          P.objectives.map (fun o =>
            (o.symbol,
              if o.maximize
              then dget (eps_result P oracle nav o).optimal_objectives
                o.symbol
              else dget nav o.symbol))) ∧
    (∀ lb ub, solve_reachable_bounds P oracle nav = .ok (lb, ub) →
      ∀ o ∈ P.objectives, dget lb o.symbol ≤ dget ub o.symbol) := by
  have hentries : exceptMap
      (bounds_for_objective oracle nav (const_bounds_of P nav))
      P.objectives = .ok (P.objectives.map (fun o =>
        (o.symbol,
          (if o.maximize then dget nav o.symbol
            else dget (eps_result P oracle nav o).optimal_objectives
              o.symbol),
          (if o.maximize
            then dget (eps_result P oracle nav o).optimal_objectives o.symbol
            else dget nav o.symbol)))) := by
    apply exceptMap_ok_of
    intro o ho
    have hsucc := hs o ho
    have hlvs := hsv o ho
    unfold eps_result at hsucc hlvs
    obtain ⟨lv, hlv⟩ := Option.isSome_iff_exists.mp hlvs
    obtain ⟨uv, huv⟩ := Option.isSome_iff_exists.mp (hk o ho)
    simp only [bounds_for_objective, hsucc, hlv, huv, Bool.true_eq_false,
      if_false, eps_result, dget, Option.getD_some]
  have hmain : solve_reachable_bounds P oracle nav =
      .ok (P.objectives.map (fun o =>
            (o.symbol,
              if o.maximize then dget nav o.symbol
              else dget (eps_result P oracle nav o).optimal_objectives
                o.symbol)),
          P.objectives.map (fun o =>
            (o.symbol,
              if o.maximize
              then dget (eps_result P oracle nav o).optimal_objectives
                o.symbol
              else dget nav o.symbol))) := by
    simp only [solve_reachable_bounds, const_bounds_ok P nav hk, hentries,
      List.map_map, Function.comp]
    rfl
  refine ⟨hmain, ?_⟩
  intro lb ub h o ho
  rw [hmain] at h
  cases h
  have hl := dlookup_objmap P.objectives
    (fun o2 => if o2.maximize then dget nav o2.symbol
      else dget (eps_result P oracle nav o2).optimal_objectives o2.symbol)
    o ho hnd
  have hu := dlookup_objmap P.objectives
    (fun o2 => if o2.maximize
      then dget (eps_result P oracle nav o2).optimal_objectives o2.symbol
      else dget nav o2.symbol)
    o ho hnd
  simp only at hl hu
  have hco := hc o ho
  simp only [dget] at hl hu hco ⊢
  rw [hl, hu, Option.getD_some, Option.getD_some]
  cases hmx : o.maximize with
  | true =>
    simp only [hmx, if_true] at hco ⊢
    linarith
  | false =>
    simp only [hmx, Bool.false_eq_true, if_false] at hco ⊢
    linarith

theorem C8_solve_reachable_bounds_witness :
    solve_reachable_bounds wP wOracle [("f1", 5)] =
      .ok ([("f1", 0)], [("f1", 5)]) ∧
    dget [("f1", 0)] "f1" ≤ dget [("f1", 5)] "f1" := by
  obtain ⟨h1, h2⟩ := C8_solve_reachable_bounds wP wOracle [("f1", 5)]
    (by decide) (by decide) (by decide) (by decide)
    (by
      intro o ho
      fin_cases ho
      norm_num [eps_result, wOracle, dget, dlookup])
  have hok : solve_reachable_bounds wP wOracle [("f1", 5)] =
      .ok ([("f1", 0)], [("f1", 5)]) := by
    rw [h1]
    norm_num [wP, eps_result, wOracle, dget, dlookup]
  exact ⟨hok,
    h2 [("f1", 0)] [("f1", 5)] hok
      { symbol := "f1", maximize := false, ideal := some 0, nadir := some 10 }
      (by decide)⟩

/-- Loop of navigator_all_steps. The source decrements an integer
steps_remaining while it is positive; here the fuel argument is that count
(the loop runs exactly steps_remaining.toNat times and the integer handed
to navigator_step at each iteration equals the remaining fuel). The source
line "response.reference_point = reference_point" — the only write to a
response after its creation — is embedded as the record update below. first
tracks the source's first_iteration flag; cached carries the previous
response's reachable solution (the source initializes the variable with the
junk value "dict", never read because the first iteration takes the
reference-point branch; here the initial cached value is none). -/
def allStepsLoop (P : Problem) (oracle : SolverOracle) (rp : ODict) :
    Nat → Int → ODict → Bool → Option ODict → List NAUTILUS_Response →
    Except NautilusNavigatorError (List NAUTILUS_Response)
  | 0, _, _, _, _, acc => .ok acc
  | n + 1, sn, nav, first, cached, acc =>
    match navigator_step P oracle ((n + 1 : Nat) : Int) sn nav
        (if first then some rp else none)
        (if first then none else cached) with
    | .error e => .error e
    | .ok response0 =>
      let response := { response0 with reference_point := some rp }
      allStepsLoop P oracle rp n (sn + 1) response.navigation_point false
        response.reachable_solution (acc ++ [response])

/-- Function navigator_all_steps of the source (the Multi-Step Driver):
resumes from the last previous response's navigation point and step
number + 1; the first step recomputes the reachable point from the
reference point, later steps reuse the first step's reachable solution. An
empty previous_responses list is Python's IndexError on
previous_responses[-1]. -/
def navigator_all_steps (P : Problem) (oracle : SolverOracle)
    (steps_remaining : Int) (reference_point : ODict)
    (previous_responses : List NAUTILUS_Response) :
    Except NautilusNavigatorError (List NAUTILUS_Response) :=
  match previous_responses.getLast? with
  | none => .error .indexError
  | some last =>
    allStepsLoop P oracle reference_point steps_remaining.toNat
      (last.step_number + 1) last.navigation_point true none []

theorem navigator_step_core_ok {P : Problem} {oracle : SolverOracle}
    {sr sn : Int} {nav : ODict} {rpo : Option ODict} {rpnt : ODict}
    {r : NAUTILUS_Response}
    (h : navigator_step_core P oracle sr sn nav rpo rpnt = .ok r) :
    r.step_number = sn ∧ r.reference_point = rpo ∧
      r.reachable_solution = some rpnt := by
  unfold navigator_step_core at h
  split at h
  · cases h
  · split at h
    · cases h
    · split at h
      · cases h
      · cases h
        exact ⟨rfl, rfl, rfl⟩

theorem navigator_step_ok_cached {P : Problem} {oracle : SolverOracle}
    {sr sn : Int} {nav c : ODict} {r : NAUTILUS_Response}
    (h : navigator_step P oracle sr sn nav none (some c) = .ok r) :
    r.step_number = sn ∧ r.reference_point = none ∧
      r.reachable_solution = some c :=
  navigator_step_core_ok h

theorem navigator_step_ok_ref {P : Problem} {oracle : SolverOracle}
    {sr sn : Int} {nav rp : ODict} {r : NAUTILUS_Response}
    (h : navigator_step P oracle sr sn nav (some rp) none = .ok r) :
    r.step_number = sn ∧ r.reference_point = some rp ∧
      r.reachable_solution =
        some (solve_reachable_solution P oracle rp nav).optimal_objectives :=
  navigator_step_core_ok h

theorem allStepsLoop_ok_cached (P : Problem) (oracle : SolverOracle)
    (rp c : ODict) :
    ∀ (n : Nat) (sn : Int) (nav : ODict)
      (acc rs : List NAUTILUS_Response),
    allStepsLoop P oracle rp n sn nav false (some c) acc = .ok rs →
    ∃ t, rs = acc ++ t ∧ t.length = n ∧
      ∀ i (hi : i < t.length),
        (t.get ⟨i, hi⟩).step_number = sn + i ∧
        (t.get ⟨i, hi⟩).reachable_solution = some c ∧
        (t.get ⟨i, hi⟩).reference_point = some rp := by
  intro n
  induction n with
  | zero =>
    intro sn nav acc rs hh
    cases hh
    exact ⟨[], by simp, rfl, by intro i hi; simp at hi⟩
  | succ n ih =>
    intro sn nav acc rs hh
    simp only [allStepsLoop, Bool.false_eq_true, if_false] at hh
    split at hh
    · cases hh
    · rename_i resp hstep
      obtain ⟨hsn, hrefp, hreach⟩ := navigator_step_ok_cached hstep
      rw [show ({ resp with reference_point := some rp } :
            NAUTILUS_Response).reachable_solution = some c from hreach] at hh
      obtain ⟨t2, hrs, hlen, hget⟩ := ih _ _ _ _ hh
      refine ⟨{ resp with reference_point := some rp } :: t2, ?_, ?_, ?_⟩
      · rw [hrs, List.append_assoc]
        rw [hreach]
        rfl
      · simp [hlen]
      · intro i hi
        cases i with
        | zero =>
          refine ⟨?_, hreach, rfl⟩
          show resp.step_number = sn + ((0 : Nat) : Int)
          rw [hsn]
          simp
        | succ i =>
          have hi2 : i < t2.length := by
            simpa using Nat.lt_of_succ_lt_succ hi
          obtain ⟨h1, h2, h3⟩ := hget i hi2
          refine ⟨?_, h2, h3⟩
          show (t2.get ⟨i, hi2⟩).step_number = sn + ((i + 1 : Nat) : Int)
          rw [h1]
          push_cast
          ring

/-- C2: for k > 0 and a non-empty history, a successful navigator_all_steps
call returns exactly k new responses whose step numbers continue the last
entry's step number as last+1, ..., last+k in order; the first response is
the Step Orchestrator's output for the last entry's navigation point and the
given reference point (with the driver's reference-point overwrite applied),
and every response carries the same reachable_solution as the first. The
embedding is a pure function of its arguments, so the caller's
previous_responses list is read, never modified. -/
theorem C2_navigator_all_steps (P : Problem) (oracle : SolverOracle)
    (k : Int) (rp : ODict) (h : List NAUTILUS_Response)
    (last : NAUTILUS_Response) (rs : List NAUTILUS_Response)
    (hlast : h.getLast? = some last) (hk : 0 < k)
    (hrun : navigator_all_steps P oracle k rp h = .ok rs) :
    rs.length = k.toNat ∧
    (∀ i (hi : i < rs.length),
      (rs.get ⟨i, hi⟩).step_number = last.step_number + 1 + i) ∧
    (∃ r0, navigator_step P oracle k (last.step_number + 1)
        last.navigation_point (some rp) none = .ok r0 ∧
      rs.head? = some { r0 with reference_point := some rp } ∧
      ∀ r ∈ rs, r.reachable_solution = r0.reachable_solution) := by
  unfold navigator_all_steps at hrun
  rw [hlast] at hrun
  simp only at hrun
  obtain ⟨m, hm⟩ : ∃ m, k.toNat = m + 1 := ⟨k.toNat - 1, by omega⟩
  rw [hm] at hrun
  simp only [allStepsLoop, if_true] at hrun
  split at hrun
  · cases hrun
  · rename_i resp hstep
    have hcast : ((m + 1 : Nat) : Int) = k := by omega
    rw [hcast] at hstep
    obtain ⟨hsn, hrefp, hreach⟩ := navigator_step_ok_ref hstep
    rw [show ({ resp with reference_point := some rp } :
          NAUTILUS_Response).reachable_solution =
        some (solve_reachable_solution P oracle rp
          last.navigation_point).optimal_objectives from hreach] at hrun
    obtain ⟨t2, hrs, hlen, hget⟩ :=
      allStepsLoop_ok_cached P oracle rp _ _ _ _ _ _ hrun
    rw [List.nil_append] at hrs
    subst hrs
    refine ⟨?_, ?_, resp, hstep, ?_, ?_⟩
    · simp [hlen]
      omega
    · intro i hi
      rcases i with _ | i
      · show resp.step_number = last.step_number + 1 + ((0 : Nat) : Int)
        rw [hsn]
        simp
      · have hi2 : i < t2.length := by
          simp [List.length_append] at hi
          omega
        show (t2.get ⟨i, hi2⟩).step_number =
          last.step_number + 1 + ((i + 1 : Nat) : Int)
        rw [(hget i hi2).1]
        push_cast
        ring
    · rw [hreach]
      rfl
    · intro r hr
      rw [List.singleton_append] at hr
      rcases List.mem_cons.mp hr with rfl | hr2
      · exact hreach.symm
      · obtain ⟨⟨i, hi⟩, hgeti⟩ := List.mem_iff_get.mp hr2
        rw [← hgeti, (hget i hi).2.1, hreach]

/-- Concrete initial response (navigation point at the nadir of wP) used by
the driver witnesses. -/
def wr0 : NAUTILUS_Response :=
  { step_number := 0, distance_to_front := 0, reference_point := none,
    navigation_point := [("f1", 10)], reachable_solution := none,
    reachable_bounds := ([], []) }

/-- Concrete one-element history for the driver witnesses. -/
def c2hist : List NAUTILUS_Response := [wr0]

/-- Concrete reference point for the driver witnesses. -/
def c2rp : ODict := [("f1", 1)]

/-- The value of navigator_all_steps wP wOracle 3 c2rp c2hist, written out. -/
def c2list : List NAUTILUS_Response :=
  [{ step_number := 1, distance_to_front := 10000 / 9,
     reference_point := some c2rp, navigation_point := [("f1", 20 / 3)],
     reachable_solution := some [("f1", 0)],
     reachable_bounds := ([("f1", 0)], [("f1", 20 / 3)]) },
   { step_number := 2, distance_to_front := 40000 / 9,
     reference_point := some c2rp, navigation_point := [("f1", 10 / 3)],
     reachable_solution := some [("f1", 0)],
     reachable_bounds := ([("f1", 0)], [("f1", 10 / 3)]) },
   { step_number := 3, distance_to_front := 10000,
     reference_point := some c2rp, navigation_point := [("f1", 0)],
     reachable_solution := some [("f1", 0)],
     reachable_bounds := ([("f1", 0)], [("f1", 0)]) }]

theorem C2_navigator_all_steps_witness :
    c2hist.getLast? = some wr0 ∧ (0 : Int) < 3 ∧
    navigator_all_steps wP wOracle 3 c2rp c2hist = .ok c2list ∧
    (c2list.length = (3 : Int).toNat ∧
      (∀ i (hi : i < c2list.length),
        (c2list.get ⟨i, hi⟩).step_number = wr0.step_number + 1 + i) ∧
      (∃ r0, navigator_step wP wOracle 3 (wr0.step_number + 1)
          wr0.navigation_point (some c2rp) none = .ok r0 ∧
        c2list.head? = some { r0 with reference_point := some c2rp } ∧
        ∀ r ∈ c2list, r.reachable_solution = r0.reachable_solution)) := by
  have hrun : navigator_all_steps wP wOracle 3 c2rp c2hist = .ok c2list := by
    norm_num [navigator_all_steps, allStepsLoop, navigator_step,
      navigator_step_core, solve_reachable_solution,
      calculate_navigation_point, objective_dict_to_numpy_array,
      numpy_array_to_objective_dict, exceptMap, dlookup, dget, const_bounds,
      bounds_for_objective, solve_reachable_bounds,
      calculate_distance_to_front, sqDist, wP, wOracle, c2hist, c2rp,
      c2list, wr0]
  exact ⟨rfl, by norm_num, hrun,
    C2_navigator_all_steps wP wOracle 3 c2rp c2hist wr0 c2list rfl
      (by norm_num) hrun⟩

/-- C10: navigator_all_steps reads its previous_responses argument only
through the last element: two histories with the same last response produce
identical response lists for identical problem, steps-remaining, reference
point and solver oracle. -/
theorem C10_navigator_all_steps_last_only (P : Problem)
    (oracle : SolverOracle) (k : Int) (rp : ODict)
    (h1 h2 : List NAUTILUS_Response)
    (hlast : h1.getLast? = h2.getLast?) :
    navigator_all_steps P oracle k rp h1 =
      navigator_all_steps P oracle k rp h2 := by
  unfold navigator_all_steps
  rw [hlast]

/-- A second concrete history with a different earlier entry but the same
last response as c2hist. -/
def c10hist : List NAUTILUS_Response :=
  [{ step_number := 7, distance_to_front := 3, reference_point := some [],
     navigation_point := [("f1", 4)], reachable_solution := some [],
     reachable_bounds := ([], []) }, wr0]

theorem C10_navigator_all_steps_last_only_witness :
    c10hist.getLast? = c2hist.getLast? ∧
    navigator_all_steps wP wOracle 3 c2rp c10hist =
      navigator_all_steps wP wOracle 3 c2rp c2hist :=
  ⟨rfl, C10_navigator_all_steps_last_only wP wOracle 3 c2rp c10hist c2hist
    rfl⟩

/-- First response of the two-step run used for the C9 counterexample. -/
def c9a : NAUTILUS_Response :=
  { step_number := 1, distance_to_front := 2500,
    reference_point := some c2rp, navigation_point := [("f1", 5)],
    reachable_solution := some [("f1", 0)],
    reachable_bounds := ([("f1", 0)], [("f1", 5)]) }

/-- Second response of the two-step run used for the C9 counterexample, as
navigator_all_steps returns it (reference_point overwritten). -/
def c9b : NAUTILUS_Response :=
  { step_number := 2, distance_to_front := 10000,
    reference_point := some c2rp, navigation_point := [("f1", 0)],
    reachable_solution := some [("f1", 0)],
    reachable_bounds := ([("f1", 0)], [("f1", 0)]) }

/-- The same second response as the Step Orchestrator creates it, before the
driver overwrites its reference_point field (the orchestrator stores
reference_point = none on the cached-solution branch). -/
def c9b0 : NAUTILUS_Response :=
  { step_number := 2, distance_to_front := 10000,
    reference_point := none, navigation_point := [("f1", 0)],
    reachable_solution := some [("f1", 0)],
    reachable_bounds := ([("f1", 0)], [("f1", 0)]) }

/-- C9 counterexample: the Multi-Step Driver mutates responses after their
creation. In a concrete two-step run the second response created by the
Step Orchestrator carries reference_point = none, but the response the
driver returns for that step carries reference_point = the driver's
reference point, so a response field is changed after creation and the
claim is false. -/
theorem C9_counterexample :
    navigator_all_steps wP wOracle 2 c2rp c2hist = .ok [c9a, c9b] ∧
    navigator_step wP wOracle 1 2 c9a.navigation_point none
      c9a.reachable_solution = .ok c9b0 ∧
    c9b0.reference_point = none ∧
    c9b.reference_point = some c2rp ∧
    c9b ≠ c9b0 := by
  refine ⟨?_, ?_, rfl, rfl, ?_⟩
  · norm_num [navigator_all_steps, allStepsLoop, navigator_step,
      navigator_step_core, solve_reachable_solution,
      calculate_navigation_point, objective_dict_to_numpy_array,
      numpy_array_to_objective_dict, exceptMap, dlookup, dget, const_bounds,
      bounds_for_objective, solve_reachable_bounds,
      calculate_distance_to_front, sqDist, wP, wOracle, c2hist, c2rp, wr0,
      c9a, c9b]
  · norm_num [navigator_step, navigator_step_core,
      calculate_navigation_point, objective_dict_to_numpy_array,
      numpy_array_to_objective_dict, exceptMap, dlookup, dget, const_bounds,
      bounds_for_objective, solve_reachable_bounds,
      calculate_distance_to_front, sqDist, wP, wOracle, c9a, c9b0]
  · intro hcontra
    have hf := congrArg NAUTILUS_Response.reference_point hcontra
    simp [c9b, c9b0] at hf

theorem allStepsLoop_mem (P : Problem) (oracle : SolverOracle) (rp : ODict) :
    ∀ (n : Nat) (sn : Int) (nav : ODict) (first : Bool)
      (cached : Option ODict) (acc rs : List NAUTILUS_Response),
    allStepsLoop P oracle rp n sn nav first cached acc = .ok rs →
    ∀ r ∈ rs, r ∈ acc ∨
      (r.reference_point = some rp ∧
        ∃ sr sn2 nav2 rpo cso pre,
          navigator_step P oracle sr sn2 nav2 rpo cso = .ok pre ∧
          r = { pre with reference_point := some rp }) := by
  intro n
  induction n with
  | zero =>
    intro sn nav first cached acc rs hh r hr
    cases hh
    exact Or.inl hr
  | succ n ih =>
    intro sn nav first cached acc rs hh r hr
    simp only [allStepsLoop] at hh
    split at hh
    · cases hh
    · rename_i resp hstep
      rcases ih _ _ _ _ _ _ hh r hr with hin | hprop
      · rcases List.mem_append.mp hin with hin2 | hin3
        · exact Or.inl hin2
        · right
          have hr2 : r = { resp with reference_point := some rp } := by
            simpa using hin3
          exact ⟨by rw [hr2], _, _, _, _, _, resp, hstep, hr2⟩
      · exact Or.inr hprop

/-- C9 amended: responses are created by the Step Orchestrator and no core
operation mutates them afterwards except for one deliberate write: the
Multi-Step Driver overwrites each freshly created response's
reference_point field with the reference point of the call before
collecting it. Every response navigator_all_steps returns is exactly a
navigator_step result with only that field replaced; all other fields are
unchanged. -/
theorem C9_amended_reference_point_overwrite (P : Problem)
    (oracle : SolverOracle) (k : Int) (rp : ODict)
    (h rs : List NAUTILUS_Response)
    (hrun : navigator_all_steps P oracle k rp h = .ok rs) :
    ∀ r ∈ rs, r.reference_point = some rp ∧
      ∃ sr sn nav rpo cso pre,
        navigator_step P oracle sr sn nav rpo cso = .ok pre ∧
        r = { pre with reference_point := some rp } := by
  unfold navigator_all_steps at hrun
  split at hrun
  · cases hrun
  · intro r hr
    rcases allStepsLoop_mem P oracle rp _ _ _ _ _ _ _ hrun r hr with
      hin | hprop
    · simp at hin
    · exact hprop

theorem C9_amended_reference_point_overwrite_witness :
    navigator_all_steps wP wOracle 3 c2rp c2hist = .ok c2list ∧
    ∀ r ∈ c2list, r.reference_point = some c2rp ∧
      ∃ sr sn nav rpo cso pre,
        navigator_step wP wOracle sr sn nav rpo cso = .ok pre ∧
        r = { pre with reference_point := some c2rp } := by
  have hrun : navigator_all_steps wP wOracle 3 c2rp c2hist = .ok c2list := by
    norm_num [navigator_all_steps, allStepsLoop, navigator_step,
      navigator_step_core, solve_reachable_solution,
      calculate_navigation_point, objective_dict_to_numpy_array,
      numpy_array_to_objective_dict, exceptMap, dlookup, dget, const_bounds,
      bounds_for_objective, solve_reachable_bounds,
      calculate_distance_to_front, sqDist, wP, wOracle, c2hist, c2rp,
      c2list, wr0]
  exact ⟨hrun,
    C9_amended_reference_point_overwrite wP wOracle 3 c2rp c2hist c2list
      hrun⟩

/-- Function step_back_index of the source: the indices of all responses
with the given step number (a Python list comprehension over enumerate),
then the last of them; an empty relevant_indices list is Python's
IndexError on relevant_indices[-1], modelled as none. -/
def step_back_index (responses : List NAUTILUS_Response)
    (step_number : Int) : Option Nat :=
  ((List.range responses.length).filter (fun i =>
    match responses.get? i with
    | some r => r.step_number == step_number
    | none => false)).getLast?

/-- Python list indexing responses[i] with negative-index wraparound: a
negative index counts from the end of the list; an index out of range on
either side is an IndexError, modelled as none. -/
def pyGet {α : Type} (l : List α) (i : Int) : Option α :=
  if 0 ≤ i then l.get? i.toNat
  else if -i ≤ (l.length : Int) then l.get? (l.length - (-i).toNat)
  else none

/-- Inner while loop of get_current_path: decrement the index, then test
the entry at it (Python evaluates all_responses[current_index] with
negative-index wraparound) until the target step number is found or the
index runs past -(length), where Python raises IndexError (none). The fuel
argument only bounds the scan: the wrapper below passes i + length + 1,
the number of decrements after which the index reaches -(length) - 1 and
the loop stops with an IndexError anyway, so the fuel never runs out
first. -/
def searchBackAux (l : List NAUTILUS_Response) (s : Int) :
    Nat → Int → Option Int
  | 0, _ => none
  | fuel + 1, i =>
    match pyGet l (i - 1) with
    | none => none
    | some r =>
      if r.step_number = s then some (i - 1)
      else searchBackAux l s fuel (i - 1)

/-- The inner while loop of get_current_path searching backward from index
i (exclusive) for an entry with step number s. -/
def searchBack (l : List NAUTILUS_Response) (i s : Int) : Option Int :=
  searchBackAux l s (i + (l.length : Int) + 1).toNat i

/-- Outer while loop of get_current_path, structurally recursive on the
number of remaining target step numbers: fuel n handles the targets
n - 1, n - 2, ..., 0 (the source's total_steps counts down from the last
step number - 1 to 0). path collects the chosen indices in discovery
order; the loop returns the reversed list, as the source does. -/
def pathLoop (l : List NAUTILUS_Response) :
    Nat → Int → List Int → Option (List Int)
  | 0, _, path => some path.reverse
  | n + 1, current, path =>
    match searchBack l current (n : Int) with
    | none => none
    | some j => pathLoop l n j (path ++ [j])

/-- Function get_current_path of the source: starting at the last entry,
walk backward collecting one index per step number from last - 1 down to 0
(with Python's negative-index wraparound), then return the collected
indices reversed. An empty history is Python's IndexError on
all_responses[-1]; a search whose index runs past -(length) is an
IndexError as well; both are modelled as none. -/
def get_current_path (all_responses : List NAUTILUS_Response) :
    Option (List Int) :=
  match all_responses.getLast? with
  | none => none
  | some last =>
    pathLoop all_responses last.step_number.toNat
      ((all_responses.length : Int) - 1) [(all_responses.length : Int) - 1]

theorem range_filter_getLast (n : Nat) (p : Nat → Bool)
    (hex : ∃ i, i < n ∧ p i = true) :
    ∃ i, ((List.range n).filter p).getLast? = some i ∧ i < n ∧ p i = true ∧
      ∀ j, i < j → j < n → p j = false := by
  induction n with
  | zero => obtain ⟨i, hi, _⟩ := hex; omega
  | succ n ih =>
    rw [List.range_succ, List.filter_append]
    cases hp : p n with
    | true =>
      refine ⟨n, ?_, by omega, hp, by intro j h1 h2; omega⟩
      simp [List.filter, hp]
    | false =>
      have hex2 : ∃ i, i < n ∧ p i = true := by
        obtain ⟨i, hi, hpi⟩ := hex
        refine ⟨i, ?_, hpi⟩
        rcases Nat.lt_succ_iff_lt_or_eq.mp hi with h | rfl
        · exact h
        · rw [hp] at hpi; cases hpi
      obtain ⟨i, h1, h2, h3, h4⟩ := ih hex2
      refine ⟨i, ?_, by omega, h3, ?_⟩
      · simpa [List.filter, hp] using h1
      · intro j hj1 hj2
        rcases Nat.lt_succ_iff_lt_or_eq.mp hj2 with h | rfl
        · exact h4 j hj1 h
        · exact hp

/-- C5: when at least one entry has the queried step number,
step_back_index returns the index of the last-appended such entry — the
returned index holds a matching entry and every later index holds a
non-matching one (latest wins). -/
theorem C5_step_back_index (l : List NAUTILUS_Response) (s : Int)
    (hex : ∃ i, ∃ hi : i < l.length, (l.get ⟨i, hi⟩).step_number = s) :
    ∃ i, step_back_index l s = some i ∧ i < l.length ∧
      (∃ hi : i < l.length, (l.get ⟨i, hi⟩).step_number = s) ∧
      ∀ j (hj : j < l.length), i < j →
        (l.get ⟨j, hj⟩).step_number ≠ s := by
  obtain ⟨i0, hi0, hm⟩ := hex
  have hex2 : ∃ i, i < l.length ∧ (fun i =>
      match l.get? i with
      | some r => r.step_number == s
      | none => false) i = true := by
    refine ⟨i0, hi0, ?_⟩
    show (match l.get? i0 with
      | some r => r.step_number == s
      | none => false) = true
    rw [List.get?_eq_get hi0]
    simpa using hm
  obtain ⟨i, h1, h2, h3, h4⟩ := range_filter_getLast l.length _ hex2
  refine ⟨i, h1, h2, ?_, ?_⟩
  · refine ⟨h2, ?_⟩
    rw [List.get?_eq_get h2] at h3
    simpa using h3
  · intro j hj hij hcontra
    have hfalse := h4 j hij hj
    rw [List.get?_eq_get hj] at hfalse
    simp at hfalse
    exact hfalse hcontra

/-- Response with a given step number and placeholder payload, for the
history examples. -/
def mkStep (s : Int) : NAUTILUS_Response :=
  { step_number := s, distance_to_front := 0, reference_point := none,
    navigation_point := [], reachable_solution := none,
    reachable_bounds := ([], []) }

/-- History whose step numbers are 0, 1, 2, 1, 2 at indices 0 to 4: the
spec's worked backtracking example. -/
def exHist : List NAUTILUS_Response :=
  [mkStep 0, mkStep 1, mkStep 2, mkStep 1, mkStep 2]

theorem C5_step_back_index_witness :
    (∃ i, ∃ hi : i < exHist.length, (exHist.get ⟨i, hi⟩).step_number = 1) ∧
    step_back_index exHist 1 = some 3 ∧
    step_back_index exHist 2 = some 4 ∧
    (∃ i, step_back_index exHist 1 = some i ∧ i < exHist.length ∧
      (∃ hi : i < exHist.length, (exHist.get ⟨i, hi⟩).step_number = 1) ∧
      ∀ j (hj : j < exHist.length), i < j →
        (exHist.get ⟨j, hj⟩).step_number ≠ 1) :=
  ⟨⟨1, by decide, by decide⟩, by decide, by decide,
   C5_step_back_index exHist 1 ⟨1, by decide, by decide⟩⟩

theorem pyGet_mem {α : Type} {l : List α} {i : Int} {a : α}
    (h : pyGet l i = some a) : a ∈ l := by
  unfold pyGet at h
  split at h
  · exact List.get?_mem h
  · split at h
    · exact List.get?_mem h
    · cases h

theorem searchBackAux_none_of_no_match (l : List NAUTILUS_Response)
    (s : Int) (hno : ∀ r ∈ l, r.step_number ≠ s) :
    ∀ fuel i, searchBackAux l s fuel i = none := by
  intro fuel
  induction fuel with
  | zero => intro i; rfl
  | succ fuel ih =>
    intro i
    unfold searchBackAux
    cases hg : pyGet l (i - 1) with
    | none => simp only [hg]
    | some r =>
      simp only [hg]
      rw [if_neg (hno r (pyGet_mem hg))]
      exact ih (i - 1)

theorem pathLoop_none_of_gap (l : List NAUTILUS_Response) (s : Int)
    (hs : 0 ≤ s) (hno : ∀ r ∈ l, r.step_number ≠ s) :
    ∀ n current path, s.toNat < n → pathLoop l n current path = none := by
  intro n
  induction n with
  | zero => intro current path hlt; omega
  | succ n ih =>
    intro current path hlt
    unfold pathLoop
    by_cases hn : (n : Int) = s
    · have hsb : searchBack l current (n : Int) = none := by
        unfold searchBack
        rw [hn]
        exact searchBackAux_none_of_no_match l s hno _ _
      simp only [hsb]
    · cases hsb : searchBack l current (n : Int) with
      | none => simp only [hsb]
      | some j =>
        simp only [hsb]
        exact ih j (path ++ [j]) (by omega)

/-- C4: a history containing no entry for some step number between 0 and
the last entry's step number makes get_current_path fail — the backward
search for that step number scans every position (including the wrapped
negative ones) without a match and runs past -(length), an IndexError —
rather than return a path. -/
theorem C4_get_current_path_gap (l : List NAUTILUS_Response)
    (last : NAUTILUS_Response) (s : Int) (hlast : l.getLast? = some last)
    (hs0 : 0 ≤ s) (hsle : s ≤ last.step_number)
    (hno : ∀ r ∈ l, r.step_number ≠ s) :
    get_current_path l = none := by
  have hlm : last ∈ l := by
    obtain ⟨hne, heq⟩ :=
      List.mem_getLast?_eq_getLast (Option.mem_def.mpr hlast)
    rw [heq]
    exact List.getLast_mem hne
  have hne := hno last hlm
  have hslt : s < last.step_number :=
    lt_of_le_of_ne hsle (fun he => hne he.symm)
  unfold get_current_path
  rw [hlast]
  exact pathLoop_none_of_gap l s hs0 hno _ _ _ (by omega)

/-- History with step numbers 0 and 2: step number 1 is missing. -/
def gapHist : List NAUTILUS_Response := [mkStep 0, mkStep 2]

theorem C4_get_current_path_gap_witness :
    gapHist.getLast? = some (mkStep 2) ∧ (0 : Int) ≤ 1 ∧
    (1 : Int) ≤ (mkStep 2).step_number ∧
    (∀ r ∈ gapHist, r.step_number ≠ 1) ∧
    get_current_path gapHist = none :=
  ⟨rfl, by decide, by decide, by decide,
   C4_get_current_path_gap gapHist (mkStep 2) 1 rfl (by decide) (by decide)
     (by decide)⟩

/-- History with step numbers 1, 0, 2 at indices 0 to 2: every step number
from 0 to the last entry's is present. -/
def c3Hist : List NAUTILUS_Response := [mkStep 1, mkStep 0, mkStep 2]

/-- C3 counterexample: on the history with step numbers 1, 0, 2 — which
satisfies the claim's precondition — the walk exhausts the entries below
its position while searching for step number 0 and wraps around through
Python negative indexing: it returns [-2, 0, 2], reporting position -2,
although the last-appended entry with step number 0 sits at index 1 (as
step_back_index confirms); the returned value is not the list of indices of
last-appended matching entries. -/
theorem C3_counterexample :
    get_current_path c3Hist = some [-2, 0, 2] ∧
    step_back_index c3Hist 0 = some 1 ∧
    (-2 : Int) ≠ ((1 : Nat) : Int) := by
  refine ⟨by decide, by decide, by decide⟩

theorem searchBackAux_some (l : List NAUTILUS_Response) (s : Int) :
    ∀ fuel i j, searchBackAux l s fuel i = some j →
      j < i ∧ ∃ r, pyGet l j = some r ∧ r.step_number = s := by
  intro fuel
  induction fuel with
  | zero => intro i j h; cases h
  | succ fuel ih =>
    intro i j h
    unfold searchBackAux at h
    cases hg : pyGet l (i - 1) with
    | none => simp only [hg] at h; cases h
    | some r =>
      simp only [hg] at h
      by_cases hr : r.step_number = s
      · rw [if_pos hr] at h
        cases h
        exact ⟨by omega, r, hg, hr⟩
      · rw [if_neg hr] at h
        obtain ⟨h1, h2⟩ := ih (i - 1) j h
        exact ⟨by omega, h2⟩

theorem searchBack_some (l : List NAUTILUS_Response) (i s j : Int)
    (h : searchBack l i s = some j) :
    j < i ∧ ∃ r, pyGet l j = some r ∧ r.step_number = s :=
  searchBackAux_some l s _ i j h

theorem pathLoop_some (l : List NAUTILUS_Response) :
    ∀ n current path p, pathLoop l n current path = some p →
    ∃ ext, p = (path ++ ext).reverse ∧ ext.length = n ∧
      (∀ k (hk : k < ext.length),
        ∃ r, pyGet l (ext.get ⟨k, hk⟩) = some r ∧
          r.step_number = (n : Int) - 1 - k) ∧
      List.Chain (fun a b => b < a) current ext := by
  intro n
  induction n with
  | zero =>
    intro current path p h
    cases h
    exact ⟨[], by simp, rfl, by intro k hk; simp at hk, List.Chain.nil⟩
  | succ n ih =>
    intro current path p h
    unfold pathLoop at h
    cases hsb : searchBack l current (n : Int) with
    | none => simp only [hsb] at h; cases h
    | some j =>
      simp only [hsb] at h
      obtain ⟨hji, r0, hr0, hr0s⟩ := searchBack_some l current (n : Int) j hsb
      obtain ⟨ext2, hpe, hlen, hfacts, hchain⟩ := ih j (path ++ [j]) p h
      refine ⟨j :: ext2, ?_, by simp [hlen], ?_,
        List.Chain.cons hji hchain⟩
      · rw [hpe, List.append_assoc]
        rfl
      · intro k hk
        cases k with
        | zero =>
          refine ⟨r0, hr0, ?_⟩
          rw [hr0s]
          push_cast
          ring
        | succ k =>
          have hk2 : k < ext2.length := by
            simpa using Nat.lt_of_succ_lt_succ hk
          obtain ⟨r, hr, hrs⟩ := hfacts k hk2
          refine ⟨r, hr, ?_⟩
          rw [hrs]
          push_cast
          ring

theorem pyGet_last (l : List NAUTILUS_Response) (last : NAUTILUS_Response)
    (hlast : l.getLast? = some last) :
    pyGet l ((l.length : Int) - 1) = some last := by
  have hne : l ≠ [] := by
    intro he
    rw [he] at hlast
    cases hlast
  have hlen : 0 < l.length := List.length_pos.mpr hne
  unfold pyGet
  rw [if_pos (by omega : (0 : Int) ≤ (l.length : Int) - 1)]
  rw [show ((l.length : Int) - 1).toNat = l.length - 1 by omega]
  rw [← List.getLast?_eq_get? l]
  exact hlast

/-- C3 amended: get_current_path starts at the last entry and walks
backward searching downward for each decreasing step number, wrapping to
the end of the list through Python negative indexing when the search passes
index 0 — so the chosen entry need not be the globally last-appended
matching one and the reported position may be negative — and the walk may
fail even when every step number is present. Whenever it does return a
path, the path lists strictly increasing positions, one per step number
0, 1, ..., last step number in ascending order: the entry referenced by the
i-th position (under Python index interpretation) has step number exactly
i, and the final position is length - 1, the last entry. For the
forward-only worked history with step numbers [0, 1, 2, 1, 2] it returns
[0, 3, 4], the last-appended matching indices in ascending step order. -/
theorem C3_amended_get_current_path (l : List NAUTILUS_Response)
    (last : NAUTILUS_Response) (p : List Int)
    (hlast : l.getLast? = some last) (hstep : 0 ≤ last.step_number)
    (hp : get_current_path l = some p) :
    p.length = last.step_number.toNat + 1 ∧
    p.getLast? = some ((l.length : Int) - 1) ∧
    (∀ i (hi : i < p.length),
      ∃ r, pyGet l (p.get ⟨i, hi⟩) = some r ∧ r.step_number = (i : Int)) ∧
    List.Chain' (fun a b => a < b) p := by
  unfold get_current_path at hp
  rw [hlast] at hp
  replace hp : pathLoop l last.step_number.toNat
      ((l.length : Int) - 1) [(l.length : Int) - 1] = some p := hp
  obtain ⟨ext, hpe, hlen, hfacts, hchain⟩ := pathLoop_some l _ _ _ _ hp
  rw [List.singleton_append] at hpe
  subst hpe
  refine ⟨?_, ?_, ?_, ?_⟩
  · simp [hlen]
  · rw [List.getLast?_reverse]
    rfl
  · intro i hi
    have hilen : i < ext.length + 1 := by simpa using hi
    set c0 : Int := (l.length : Int) - 1 with hc0
    have h1 : ((c0 :: ext).reverse).get? i =
        some (((c0 :: ext).reverse).get ⟨i, hi⟩) := List.get?_eq_get hi
    have h2 : ((c0 :: ext).reverse).get? i =
        (c0 :: ext).get? (ext.length - i) := by
      rw [List.get?_eq_getElem?, List.get?_eq_getElem?,
        List.getElem?_reverse (by simpa using hilen)]
      congr 1
    rcases Nat.lt_or_ge i ext.length with hilt | hige
    · have hklt : ext.length - i - 1 < ext.length := by omega
      have h3 : (c0 :: ext).get? (ext.length - i) =
          some (ext.get ⟨ext.length - i - 1, hklt⟩) := by
        conv_lhs =>
          rw [show ext.length - i = (ext.length - i - 1) + 1 by omega]
        rw [List.get?_cons_succ]
        exact List.get?_eq_get hklt
      have hval : ((c0 :: ext).reverse).get ⟨i, hi⟩ =
          ext.get ⟨ext.length - i - 1, hklt⟩ :=
        Option.some.inj (h1.symm.trans (h2.trans h3))
      rw [hval]
      obtain ⟨r, hr, hrs⟩ := hfacts (ext.length - i - 1) hklt
      refine ⟨r, hr, ?_⟩
      rw [hrs]
      omega
    · have h3 : (c0 :: ext).get? (ext.length - i) = some c0 := by
        rw [show ext.length - i = 0 by omega]
        rfl
      have hval : ((c0 :: ext).reverse).get ⟨i, hi⟩ = c0 :=
        Option.some.inj (h1.symm.trans (h2.trans h3))
      rw [hval, hc0]
      refine ⟨last, pyGet_last l last hlast, ?_⟩
      omega
  · exact List.chain'_reverse.mpr hchain

theorem C3_amended_get_current_path_witness :
    exHist.getLast? = some (mkStep 2) ∧
    (0 : Int) ≤ (mkStep 2).step_number ∧
    get_current_path exHist = some [0, 3, 4] ∧
    (([0, 3, 4] : List Int).length = (mkStep 2).step_number.toNat + 1 ∧
      ([0, 3, 4] : List Int).getLast? = some ((exHist.length : Int) - 1) ∧
      (∀ i (hi : i < ([0, 3, 4] : List Int).length),
        ∃ r, pyGet exHist (([0, 3, 4] : List Int).get ⟨i, hi⟩) = some r ∧
          r.step_number = (i : Int)) ∧
      List.Chain' (fun a b => a < b) ([0, 3, 4] : List Int)) :=
  ⟨rfl, by decide, by decide,
   C3_amended_get_current_path exHist (mkStep 2) [0, 3, 4] rfl (by decide)
     (by decide)⟩
